import Mathlib

/-!
# Trade index action (`actions_trade.go`)

A shallow embedding of `TradeIndexAction` from the horizon service: the
request-scoped action state, the stages `loadParams`, `loadRecords`,
`loadLedgers`, `loadPage` and the `JSON` pipeline that chains them.

Collaborators that live in other packages (the request helpers of the embedded
`Action`, the effects query executor, the ledger store, `resource.Trade.Populate`
and the link builder) are collected in the record `Env` and every theorem
quantifies over it.
-/

set_option autoImplicit false

namespace Horizon

/-! ## Data model -/

/-- A Go `error` value, represented by the text it reports. -/
structure GoError where
  msg : String
deriving DecidableEq, Repr

/-- The Go call `errors.New(msg)`. -/
def errorsNew (msg : String) : GoError := ⟨msg⟩

/-- Modelled from the spec: `xdr.Asset` is declared outside the source file; an
asset identifier is a tagged union whose zero value means "unset". The two arms
are pointers, compared by address as Go compares struct values. -/
structure Asset where
  AssetType : Int
  AlphaNum4 : Option Nat
  AlphaNum12 : Option Nat
deriving DecidableEq, Repr

/-- The composite literal `xdr.Asset{}`. -/
def Asset.zero : Asset := ⟨0, none, none⟩

/-- The page query `db2.PageQuery`: cursor, order and limit. -/
structure PageQuery where
  Cursor : String
  Order : String
  Limit : Nat
deriving DecidableEq, Repr

/-- Modelled from the spec: `history.Effect` is declared outside the source file;
a primary record carries a ledger sequence number (an `int32`), the remaining
columns are summarised by `row`. -/
structure Effect where
  LedgerSequence : Int
  row : Nat
deriving DecidableEq, Repr

/-- The method `GetLedgerSequence` of a record. -/
def Effect.GetLedgerSequence (r : Effect) : Int := r.LedgerSequence

/-- Modelled from the spec: `history.Ledger` is declared outside the source file;
ledger metadata holds the close time and other ledger-scoped facts. -/
structure Ledger where
  ClosedAt : Nat
deriving DecidableEq, Repr

/-- The lookup table `history.LedgerMap`, a Go map from sequence number to ledger
metadata, kept as an association list read with `List.lookup`. -/
abbrev LedgerMap := List (Int × Ledger)

/-- Modelled from the spec: `resource.Trade` is declared outside the source file;
an output resource is a denormalised view of one record and its ledger. -/
structure Trade where
  view : Nat
  LedgerCloseTime : Nat
deriving DecidableEq, Repr

/-- The navigation links of a page. -/
structure Links where
  Self : String
  Next : String
  Prev : String
deriving DecidableEq, Repr

/-- The page envelope `hal.Page`: embedded records, pagination metadata and
navigation links. -/
structure Page where
  Links : Links
  BaseURL : String
  BasePath : String
  Records : List Trade
  Order : String
  Limit : Nat
  Cursor : String
deriving DecidableEq, Repr

/-- Modelled from the spec: `hal.Page.Add` is declared outside the source file;
the page builder accumulates resources in order, so `Add` appends at the end. -/
def Page.Add (p : Page) (res : Trade) : Page :=
  { p with Records := p.Records ++ [res] }

/-- The embedded base `Action`: the recorded error, the request context, the
request and the pages written to the response writer `W` so far. -/
structure Action where
  Err : Option GoError
  Ctx : Nat
  R : Nat
  W : List Page
deriving DecidableEq, Repr

/-- The struct `TradeIndexAction`. -/
structure TradeIndexAction extends Action where
  AccountFilter : String
  Selling : Asset
  Buying : Asset
  PagingParams : PageQuery
  Records : List Effect
  LedgerRecords : LedgerMap
  Page : Page
deriving DecidableEq, Repr

/-- The effect type tag; `EffectTrade` is `history.EffectTrade`. -/
inductive EffectType where
  | EffectTrade
  | EffectOther (code : Nat)
deriving DecidableEq, Repr

/-- One clause added to an effects query by a builder method. -/
inductive Clause where
  | OfType (t : EffectType)
  | ForAccount (aid : String)
  | ForOrderBook (selling buying : Asset)
  | Page (pq : PageQuery)
deriving DecidableEq, Repr

/-- The effects query builder `history.EffectsQ`: the clauses applied so far, in
the order of the builder calls. `HistoryQ().Effects()` is the empty list. -/
abbrev EffectsQ := List Clause

/-- The collaborators of the action that are declared in other packages. -/
structure Env where
  /-- The stage `Action.EnsureHistoryFreshness`. -/
  EnsureHistoryFreshness : Action → Action
  /-- The request helper `GetString`. -/
  GetString : Action → String → String
  /-- The request helper `GetPageQuery`; it may record an error. -/
  GetPageQuery : Action → PageQuery × Action
  /-- The request helper `GetAsset`; it may record an error. -/
  GetAsset : Action → String → Asset × Action
  /-- The getter `BaseURL`. -/
  BaseURL : Action → String
  /-- The getter `Path`. -/
  Path : Action → String
  /-- Running a built query with `Select(&dest)`: from the query and the old
  contents of `dest` to the new contents and the returned error. -/
  Select : EffectsQ → List Effect → List Effect × Option GoError
  /-- The batched read of the ledger store for a set of sequence numbers. -/
  LedgersBySequence : List Int → LedgerMap × Option GoError
  /-- The error the ledger cache reports for a sequence the store lacks. -/
  MissingLedger : Int → GoError
  /-- The method `resource.Trade.Populate` run on a zero `Trade`: the populated
  resource and the returned error. -/
  Populate : Nat → Effect → Ledger → Trade × Option GoError
  /-- The link builder behind `PopulateLinks`: from base URL, base path, order,
  limit, cursor and the embedded records to the three links. -/
  Linkf : String → String → String → Nat → String → List Trade → Links

/-! ## `loadPage` -/

/-- The message built by `fmt.Sprintf` in `loadPage`. -/
def missingLedgerMsg (seq : Int) : String :=
  "could not find ledger data for sequence " ++ toString seq

/-- Modelled from the spec: `hal.Page.PopulateLinks` is declared outside the source
file; the navigation links are computed from the stamped base URL, path, order,
limit and cursor and from the embedded records, and nothing else is changed. -/
def Page.PopulateLinks (env : Env) (p : Page) : Page :=
  { p with Links := env.Linkf p.BaseURL p.BasePath p.Order p.Limit p.Cursor p.Records }

/-- The `for` loop of `loadPage` over the remaining records. The flag is `true`
when the function returned from inside the loop. -/
def loadPageLoop (env : Env) : List Effect → TradeIndexAction → TradeIndexAction × Bool
  | [], action => (action, false)
  | record :: rest, action =>
    match action.LedgerRecords.lookup record.GetLedgerSequence with
    | none =>
      let msg := missingLedgerMsg record.GetLedgerSequence
      ({ action with Err := some (errorsNew msg) }, true)
    | some ledger =>
      let out := env.Populate action.Ctx record ledger
      let action := { action with Err := out.2 }
      if action.Err ≠ none then (action, true)
      else loadPageLoop env rest { action with Page := action.Page.Add out.1 }

/-- The stamping of the pagination metadata that follows the loop. -/
def stampPage (env : Env) (action : TradeIndexAction) : TradeIndexAction :=
  let action := { action with Page := { action.Page with BaseURL := env.BaseURL action.toAction } }
  let action := { action with Page := { action.Page with BasePath := env.Path action.toAction } }
  let action := { action with Page := { action.Page with Limit := action.PagingParams.Limit } }
  let action := { action with Page := { action.Page with Cursor := action.PagingParams.Cursor } }
  let action := { action with Page := { action.Page with Order := action.PagingParams.Order } }
  { action with Page := action.Page.PopulateLinks env }

/-- The method `loadPage`. -/
def loadPage (env : Env) (action : TradeIndexAction) : TradeIndexAction :=
  match loadPageLoop env action.Records action with
  | (action, true) => action
  | (action, false) => stampPage env action

/-! ## `loadParams` and `loadRecords` -/

/-- The method `loadParams`. -/
def loadParams (env : Env) (action : TradeIndexAction) : TradeIndexAction :=
  let action := { action with AccountFilter := env.GetString action.toAction "account_id" }
  let pq := env.GetPageQuery action.toAction
  let action := { action with toAction := pq.2, PagingParams := pq.1 }
  if env.GetString action.toAction "selling_asset_type" ≠ "" then
    let s := env.GetAsset action.toAction "selling_"
    let action := { action with toAction := s.2, Selling := s.1 }
    let b := env.GetAsset action.toAction "buying_"
    { action with toAction := b.2, Buying := b.1 }
  else action

/-- The query `trades` after the two optional filters of `loadRecords`. -/
def tradesQuery (action : TradeIndexAction) : EffectsQ :=
  let trades : EffectsQ := [Clause.OfType EffectType.EffectTrade]
  let trades := if action.AccountFilter ≠ "" then
    trades ++ [Clause.ForAccount action.AccountFilter] else trades
  let trades := if action.Selling ≠ Asset.zero ∨ action.Buying ≠ Asset.zero then
    trades ++ [Clause.ForOrderBook action.Selling action.Buying] else trades
  trades

/-- The query that `loadRecords` runs: `trades.Page(action.PagingParams)`. -/
def pagedTradesQuery (action : TradeIndexAction) : EffectsQ :=
  tradesQuery action ++ [Clause.Page action.PagingParams]

/-- The method `loadRecords`. -/
def loadRecords (env : Env) (action : TradeIndexAction) : TradeIndexAction :=
  let out := env.Select (pagedTradesQuery action) action.Records
  { action with Records := out.1, Err := out.2 }

/-! ## `loadLedgers` -/

/-- The interface `history.LedgerSequencer`, here a pointer to a record. -/
abbrev LedgerSequencer := Effect

/-- Modelled from the spec: `history.LedgerCache.LoadLedgers` is declared outside
the source file. It computes the distinct set of sequence numbers referenced,
issues one batched fetch for exactly that set and returns the lookup table; when
the fetch fails, or a requested sequence is absent from the fetched table, the
call fails entirely. The second component lists the fetches issued. -/
def LoadLedgers (env : Env) (sequences : List LedgerSequencer) :
    (LedgerMap × Option GoError) × List (List Int) :=
  let wanted := (sequences.map Effect.GetLedgerSequence).dedup
  let out := env.LedgersBySequence wanted
  match out.2 with
  | some e => (([], some e), [wanted])
  | none =>
    match wanted.find? (fun s => (out.1.lookup s).isNone) with
    | some s => (([], some (env.MissingLedger s)), [wanted])
    | none => ((out.1, none), [wanted])

/-- The method `loadLedgers`, together with the fetches issued to the ledger
store during the call. -/
def loadLedgersTraced (env : Env) (action : TradeIndexAction) :
    TradeIndexAction × List (List Int) :=
  let sequences : List LedgerSequencer := action.Records.map (fun r => r)
  let out := LoadLedgers env sequences
  ({ action with LedgerRecords := out.1.1, Err := out.1.2 }, out.2)

/-- The method `loadLedgers`. -/
def loadLedgers (env : Env) (action : TradeIndexAction) : TradeIndexAction :=
  (loadLedgersTraced env action).1

/-! ## The `JSON` pipeline -/

/-- The stages handed to `Do` by `JSON`. -/
inductive Stage where
  | EnsureHistoryFreshness
  | loadParams
  | loadRecords
  | loadLedgers
  | loadPage
  | render
deriving DecidableEq, Repr

/-- Modelled from the spec: `Action.Do` is declared outside the source file. The
stages run in the given order and no stage begins unless the prior stages have
recorded no failure. The second component lists the stages that were run. -/
def Do : List (Stage × (TradeIndexAction → TradeIndexAction)) → TradeIndexAction →
    TradeIndexAction × List Stage
  | [], action => (action, [])
  | (name, fn) :: rest, action =>
    if action.Err ≠ none then (action, [])
    else
      let out := Do rest (fn action)
      (out.1, name :: out.2)

/-- Modelled from the spec: `hal.Render` is declared outside the source file; the
page is emitted to the response writer. -/
def halRender (w : List Page) (page : Page) : List Page := w ++ [page]

/-- The argument list of `action.Do` in `JSON`. -/
def stages (env : Env) : List (Stage × (TradeIndexAction → TradeIndexAction)) :=
  [ (Stage.EnsureHistoryFreshness,
      fun action => { action with toAction := env.EnsureHistoryFreshness action.toAction }),
    (Stage.loadParams, loadParams env),
    (Stage.loadRecords, loadRecords env),
    (Stage.loadLedgers, loadLedgers env),
    (Stage.loadPage, loadPage env),
    (Stage.render, fun action => { action with W := halRender action.W action.Page }) ]

/-- The method `JSON`, with the list of stages that were run. -/
def JSON (env : Env) (action : TradeIndexAction) : TradeIndexAction × List Stage :=
  Do (stages env) action

/-! ## Specification vocabulary for `loadPage` -/

/-- Under context `ctx` and table `table`, record `record` is assembled into
`res`: its ledger sequence is a key of the table and `Populate` on the record and
the table entry returns `res` with no error. -/
def Assembles (env : Env) (ctx : Nat) (table : LedgerMap) (record : Effect) (res : Trade) :
    Prop :=
  ∃ ledger, table.lookup record.GetLedgerSequence = some ledger ∧
    env.Populate ctx record ledger = (res, none)

/-- Under context `ctx` and table `table`, the loop body fails on `record` with
error `e`: either the ledger sequence is absent from the table and `e` is the
"could not find" error, or `Populate` returns `e`. -/
def FailsWith (env : Env) (ctx : Nat) (table : LedgerMap) (record : Effect) (e : GoError) :
    Prop :=
  (table.lookup record.GetLedgerSequence = none ∧
      e = errorsNew ("could not find ledger data for sequence " ++
        toString record.GetLedgerSequence)) ∨
    ∃ ledger, table.lookup record.GetLedgerSequence = some ledger ∧
      (env.Populate ctx record ledger).2 = some e

/-- The action after the loop has added `ress` to the page and left `err`. -/
def afterLoop (action : TradeIndexAction) (err : Option GoError) (ress : List Trade) :
    TradeIndexAction :=
  { action with Err := err, Page := { action.Page with Records := action.Page.Records ++ ress } }

/-! ## Sample collaborators and states -/

/-- A sample set of collaborators: `Populate` copies the record row and the ledger
close time and fails on row `0`. -/
def sampleEnv : Env where
  EnsureHistoryFreshness := fun a => a
  GetString := fun _ _ => ""
  GetPageQuery := fun a => (⟨"", "asc", 10⟩, a)
  GetAsset := fun a _ => (Asset.zero, a)
  BaseURL := fun _ => "http://localhost"
  Path := fun _ => "/trades"
  Select := fun _ dest => (dest, none)
  LedgersBySequence := fun seqs => (seqs.map (fun s => (s, ⟨s.toNat⟩)), none)
  MissingLedger := fun _ => ⟨"missing ledger"⟩
  Populate := fun _ r l =>
    (⟨r.row, l.ClosedAt⟩, if r.row = 0 then some ⟨"populate failed"⟩ else none)
  Linkf := fun _ path order _ cursor _ => ⟨path ++ order ++ cursor, path, path⟩

/-- The page an action starts from. -/
def emptyPage : Page := ⟨⟨"", "", ""⟩, "", "", [], "", 0, ""⟩

/-- A sample action state over the given records and lookup table. -/
def sampleAction (records : List Effect) (table : LedgerMap) : TradeIndexAction where
  Err := none
  Ctx := 0
  R := 0
  W := []
  AccountFilter := ""
  Selling := Asset.zero
  Buying := Asset.zero
  PagingParams := ⟨"", "asc", 2⟩
  Records := records
  LedgerRecords := table
  Page := emptyPage

/-- A non-zero asset. -/
def sampleAsset : Asset := ⟨1, some 1, none⟩

/-- A sample action state whose selling asset is set and whose buying asset is
the zero value. -/
def oneSidedAction : TradeIndexAction :=
  { sampleAction [] [] with Selling := sampleAsset }

/-- A sample action state with an account filter and both assets set. -/
def filteredAction : TradeIndexAction :=
  { sampleAction [] [] with AccountFilter := "GABC", Selling := sampleAsset, Buying := sampleAsset }

/-- The sample collaborators with a primary store that refuses every query. -/
def failingEnv : Env :=
  { sampleEnv with Select := fun _ dest => (dest, some ⟨"connection refused"⟩) }

/-- The stage names in the order `JSON` hands them to `Do`. -/
def stageOrder : List Stage :=
  [Stage.EnsureHistoryFreshness, Stage.loadParams, Stage.loadRecords, Stage.loadLedgers,
    Stage.loadPage, Stage.render]

/-! ## Lemmas on the loop of `loadPage` -/

theorem afterLoop_nil (action : TradeIndexAction) : afterLoop action action.Err [] = action := by
  simp [afterLoop]

theorem afterLoop_afterLoop (action : TradeIndexAction) (e1 e2 : Option GoError)
    (r1 r2 : List Trade) :
    afterLoop (afterLoop action e1 r1) e2 r2 = afterLoop action e2 (r1 ++ r2) := by
  simp [afterLoop, List.append_assoc]

theorem loadPageLoop_cons_ok (env : Env) (record : Effect) (rest : List Effect)
    (action : TradeIndexAction) (res : Trade)
    (h : Assembles env action.Ctx action.LedgerRecords record res) :
    loadPageLoop env (record :: rest) action =
      loadPageLoop env rest (afterLoop action none [res]) := by
  obtain ⟨ledger, hl, hp⟩ := h
  simp [loadPageLoop, hl, hp, afterLoop, Page.Add]

theorem loadPageLoop_cons_fail (env : Env) (record : Effect) (rest : List Effect)
    (action : TradeIndexAction) (e : GoError)
    (h : FailsWith env action.Ctx action.LedgerRecords record e) :
    loadPageLoop env (record :: rest) action = (afterLoop action (some e) [], true) := by
  rcases h with ⟨hl, he⟩ | ⟨ledger, hl, hp⟩
  · simp [loadPageLoop, hl, he, afterLoop, missingLedgerMsg]
  · simp [loadPageLoop, hl, hp, afterLoop]

/-- Each record is either assembled or fails with some error. -/
theorem assembles_or_fails (env : Env) (ctx : Nat) (table : LedgerMap) (record : Effect) :
    (∃ res, Assembles env ctx table record res) ∨ ∃ e, FailsWith env ctx table record e := by
  cases hl : table.lookup record.GetLedgerSequence with
  | none => exact Or.inr ⟨_, Or.inl ⟨hl, rfl⟩⟩
  | some ledger =>
    cases hp : (env.Populate ctx record ledger).2 with
    | none =>
      refine Or.inl ⟨(env.Populate ctx record ledger).1, ledger, hl, ?_⟩
      exact Prod.ext rfl hp
    | some e => exact Or.inr ⟨e, Or.inr ⟨ledger, hl, hp⟩⟩

/-- The loop over a front of assembled records adds their resources in order. -/
theorem loadPageLoop_append_ok (env : Env) (ctx : Nat) (table : LedgerMap) :
    ∀ (front : List Effect) (ress : List Trade) (rest : List Effect) (action : TradeIndexAction),
      action.Ctx = ctx → action.LedgerRecords = table →
      List.Forall₂ (Assembles env ctx table) front ress →
      loadPageLoop env (front ++ rest) action =
        loadPageLoop env rest
          (afterLoop action (if front = [] then action.Err else none) ress) := by
  intro front
  induction front with
  | nil =>
    intro ress rest action _ _ h
    cases h
    simp [afterLoop_nil]
  | cons r front ih =>
    intro ress rest action hc ht h
    cases h with
    | cons hr hrest =>
      rename_i res ress1
      rw [List.cons_append, loadPageLoop_cons_ok env r (front ++ rest) action res
        (by rw [hc, ht]; exact hr)]
      rw [ih ress1 rest (afterLoop action none [res]) (by simpa [afterLoop] using hc)
        (by simpa [afterLoop] using ht) hrest]
      rw [afterLoop_afterLoop]
      have : (if front = [] then (afterLoop action none [res]).Err else none) = none := by
        split <;> simp [afterLoop]
      simp [this]

/-- Complete description of the loop: it assembles a front of the records, and
either that front is the whole list and the loop falls through, or the next
record fails and the loop returns with that failure recorded. -/
theorem loadPageLoop_spec (env : Env) (records : List Effect) (action : TradeIndexAction) :
    ∃ (front : List Effect) (ress : List Trade),
      List.Forall₂ (Assembles env action.Ctx action.LedgerRecords) front ress ∧
      ((front = records ∧
          loadPageLoop env records action =
            (afterLoop action (if records = [] then action.Err else none) ress, false)) ∨
        ∃ (r : Effect) (back : List Effect) (e : GoError),
          records = front ++ r :: back ∧
          FailsWith env action.Ctx action.LedgerRecords r e ∧
          loadPageLoop env records action = (afterLoop action (some e) ress, true)) := by
  induction records generalizing action with
  | nil => exact ⟨[], [], List.Forall₂.nil, Or.inl ⟨rfl, by simp [loadPageLoop, afterLoop_nil]⟩⟩
  | cons r rest ih =>
    rcases assembles_or_fails env action.Ctx action.LedgerRecords r with ⟨res, ha⟩ | ⟨e, hf⟩
    · obtain ⟨front, ress, hfr, hcase⟩ := ih (afterLoop action none [res])
      have hfr2 : List.Forall₂ (Assembles env action.Ctx action.LedgerRecords) front ress := by
        simpa [afterLoop] using hfr
      refine ⟨r :: front, res :: ress, List.Forall₂.cons ha hfr2, ?_⟩
      rw [loadPageLoop_cons_ok env r rest action res ha]
      rcases hcase with ⟨hall, hrun⟩ | ⟨r2, back, e, hsplit, hfail, hrun⟩
      · refine Or.inl ⟨by rw [hall], ?_⟩
        rw [hrun, afterLoop_afterLoop]
        have : (if rest = [] then (afterLoop action none [res]).Err else none) = none := by
          split <;> simp [afterLoop]
        simp [this]
      · refine Or.inr ⟨r2, back, e, by rw [hsplit]; rfl, by simpa [afterLoop] using hfail, ?_⟩
        rw [hrun, afterLoop_afterLoop]
        rfl
    · refine ⟨[], [], List.Forall₂.nil, Or.inr ⟨r, rest, e, rfl, hf, ?_⟩⟩
      rw [loadPageLoop_cons_fail env r rest action e hf]

/-! ## Lemmas on `loadPage` -/

theorem stampPage_records (env : Env) (action : TradeIndexAction) :
    (stampPage env action).Page.Records = action.Page.Records := rfl

/-- When a front of the records is assembled and the next record fails,
`loadPage` returns with the front's resources added and the failure recorded. -/
theorem loadPage_of_fail (env : Env) (action : TradeIndexAction) (front back : List Effect)
    (r : Effect) (ress : List Trade) (e : GoError)
    (hsplit : action.Records = front ++ r :: back)
    (hfront : List.Forall₂ (Assembles env action.Ctx action.LedgerRecords) front ress)
    (hfail : FailsWith env action.Ctx action.LedgerRecords r e) :
    loadPage env action = afterLoop action (some e) ress := by
  have h1 := loadPageLoop_append_ok env action.Ctx action.LedgerRecords front ress (r :: back)
    action rfl rfl hfront
  have h2 := loadPageLoop_cons_fail env r back
    (afterLoop action (if front = [] then action.Err else none) ress) e
    (by simpa [afterLoop] using hfail)
  rw [afterLoop_afterLoop] at h2
  simp only [loadPage, hsplit, h1, h2, List.append_nil]

/-- When every record is assembled, `loadPage` stamps the page that holds their
resources. -/
theorem loadPage_of_ok (env : Env) (action : TradeIndexAction) (ress : List Trade)
    (hall : List.Forall₂ (Assembles env action.Ctx action.LedgerRecords) action.Records ress) :
    loadPage env action =
      stampPage env (afterLoop action (if action.Records = [] then action.Err else none) ress) := by
  have h1 := loadPageLoop_append_ok env action.Ctx action.LedgerRecords action.Records ress []
    action rfl rfl hall
  rw [List.append_nil] at h1
  simp only [loadPage, h1, loadPageLoop]

/-- The two outcomes of `loadPage`. -/
theorem loadPage_cases (env : Env) (action : TradeIndexAction) :
    (∃ ress, List.Forall₂ (Assembles env action.Ctx action.LedgerRecords) action.Records ress ∧
        loadPage env action =
          stampPage env
            (afterLoop action (if action.Records = [] then action.Err else none) ress)) ∨
      ∃ (front back : List Effect) (r : Effect) (ress : List Trade) (e : GoError),
        action.Records = front ++ r :: back ∧
        List.Forall₂ (Assembles env action.Ctx action.LedgerRecords) front ress ∧
        FailsWith env action.Ctx action.LedgerRecords r e ∧
        loadPage env action = afterLoop action (some e) ress := by
  obtain ⟨front, ress, hfr, hcase⟩ := loadPageLoop_spec env action.Records action
  rcases hcase with ⟨hall, _⟩ | ⟨r, back, e, hsplit, hfail, _⟩
  · subst hall
    exact Or.inl ⟨ress, hfr, loadPage_of_ok env action ress hfr⟩
  · exact Or.inr ⟨front, back, r, ress, e, hsplit, hfr, hfail,
      loadPage_of_fail env action front back r ress e hsplit hfr hfail⟩

/-- Records that are all present in the table and populated without error are
assembled into some list of resources. -/
theorem forall₂_of_forall_ok (env : Env) (ctx : Nat) (table : LedgerMap) (front : List Effect)
    (h : ∀ x ∈ front, ∃ ledger, table.lookup x.GetLedgerSequence = some ledger ∧
      (env.Populate ctx x ledger).2 = none) :
    ∃ ress, List.Forall₂ (Assembles env ctx table) front ress := by
  induction front with
  | nil => exact ⟨[], List.Forall₂.nil⟩
  | cons x front ih =>
    obtain ⟨ress, hr⟩ := ih (fun y hy => h y (List.mem_cons_of_mem _ hy))
    obtain ⟨ledger, hl, hp⟩ := h x (List.mem_cons_self _ _)
    exact ⟨(env.Populate ctx x ledger).1 :: ress,
      List.Forall₂.cons ⟨ledger, hl, Prod.ext rfl hp⟩ hr⟩

/-- Every member of the left list of a pointwise relation has a partner. -/
theorem exists_of_forall₂ {α β : Type} {R : α → β → Prop} {l1 : List α} {l2 : List β}
    (h : List.Forall₂ R l1 l2) : ∀ x ∈ l1, ∃ y, R x y := by
  induction h with
  | nil => intro x hx; cases hx
  | cons hr _ ih =>
    intro x hx
    rcases List.mem_cons.mp hx with rfl | hx
    · exact ⟨_, hr⟩
    · exact ih x hx

/-! ## Claims on `loadPage` -/

/-- C1: if `loadPage`, started on an empty page, finishes with no error, then
every record's ledger sequence is a key of the lookup table and the page holds
exactly one resource per record, in record order, the i-th resource being the
one `Populate` built from the i-th record and its table entry. -/
theorem loadPage_ok_complete (env : Env) (action : TradeIndexAction)
    (hempty : action.Page.Records = []) (hok : (loadPage env action).Err = none) :
    (∀ record ∈ action.Records,
        ∃ ledger, action.LedgerRecords.lookup record.GetLedgerSequence = some ledger) ∧
      (loadPage env action).Page.Records.length = action.Records.length ∧
      List.Forall₂
        (fun record res =>
          ∃ ledger, action.LedgerRecords.lookup record.GetLedgerSequence = some ledger ∧
            env.Populate action.Ctx record ledger = (res, none))
        action.Records (loadPage env action).Page.Records := by
  rcases loadPage_cases env action with ⟨ress, hall, hrun⟩ | ⟨_, _, _, ress, e, _, _, _, hrun⟩
  · have hrec : (loadPage env action).Page.Records = ress := by
      rw [hrun, stampPage_records]
      simp [afterLoop, hempty]
    rw [hrec]
    refine ⟨?_, hall.length_eq.symm, hall⟩
    intro record hmem
    obtain ⟨_, ledger, hl, _⟩ := exists_of_forall₂ hall record hmem
    exact ⟨ledger, hl⟩
  · rw [hrun] at hok
    simp [afterLoop] at hok

theorem loadPage_ok_complete_witness :
    (sampleAction [⟨10, 1⟩, ⟨10, 2⟩, ⟨12, 3⟩] [(10, ⟨100⟩), (12, ⟨120⟩)]).Page.Records = [] ∧
      (loadPage sampleEnv
        (sampleAction [⟨10, 1⟩, ⟨10, 2⟩, ⟨12, 3⟩] [(10, ⟨100⟩), (12, ⟨120⟩)])).Page.Records
        = [⟨1, 100⟩, ⟨2, 100⟩, ⟨3, 120⟩] ∧
      List.Forall₂
        (fun record res =>
          ∃ ledger, List.lookup record.GetLedgerSequence [(10, ⟨100⟩), (12, ⟨120⟩)]
              = some ledger ∧
            sampleEnv.Populate 0 record ledger = (res, none))
        [⟨10, 1⟩, ⟨10, 2⟩, ⟨12, 3⟩]
        (loadPage sampleEnv
          (sampleAction [⟨10, 1⟩, ⟨10, 2⟩, ⟨12, 3⟩] [(10, ⟨100⟩), (12, ⟨120⟩)])).Page.Records :=
  ⟨rfl, by decide,
    (loadPage_ok_complete sampleEnv
      (sampleAction [⟨10, 1⟩, ⟨10, 2⟩, ⟨12, 3⟩] [(10, ⟨100⟩), (12, ⟨120⟩)]) rfl (by decide)).2.2⟩

/-- C2: if the records split as `front ++ r :: back`, every record of `front` is
in the lookup table and populated without error, and the ledger sequence of `r`
is absent from the table (so `r` is the first absent record), then `loadPage`
records the error "could not find ledger data for sequence N" with N the ledger
sequence of `r`, and the page has gained resources for `front` only. -/
theorem loadPage_missing_ledger (env : Env) (action : TradeIndexAction)
    (front back : List Effect) (r : Effect)
    (hsplit : action.Records = front ++ r :: back)
    (hfront : ∀ x ∈ front,
      ∃ ledger, action.LedgerRecords.lookup x.GetLedgerSequence = some ledger ∧
        (env.Populate action.Ctx x ledger).2 = none)
    (habsent : action.LedgerRecords.lookup r.GetLedgerSequence = none) :
    (loadPage env action).Err =
        some (errorsNew ("could not find ledger data for sequence " ++
          toString r.GetLedgerSequence)) ∧
      (loadPage env action).Page.Records.length = action.Page.Records.length + front.length := by
  obtain ⟨ress, hress⟩ := forall₂_of_forall_ok env action.Ctx action.LedgerRecords front hfront
  have hrun := loadPage_of_fail env action front back r ress _ hsplit hress
    (Or.inl ⟨habsent, rfl⟩)
  rw [hrun]
  simp [afterLoop, hress.length_eq]

theorem loadPage_missing_ledger_witness :
    (loadPage sampleEnv
      (sampleAction [⟨10, 1⟩, ⟨99, 2⟩, ⟨98, 3⟩] [(10, ⟨100⟩), (12, ⟨120⟩)])).Err
      = some (errorsNew ("could not find ledger data for sequence " ++ toString (99 : Int))) ∧
    (loadPage sampleEnv
      (sampleAction [⟨10, 1⟩, ⟨99, 2⟩, ⟨98, 3⟩] [(10, ⟨100⟩), (12, ⟨120⟩)])).Page.Records.length
      = 0 + 1 :=
  loadPage_missing_ledger sampleEnv
    (sampleAction [⟨10, 1⟩, ⟨99, 2⟩, ⟨98, 3⟩] [(10, ⟨100⟩), (12, ⟨120⟩)])
    [⟨10, 1⟩] [⟨98, 3⟩] ⟨99, 2⟩ rfl (by decide) (by decide)

/-- C7: whenever `loadPage` finishes with no error, the page's `Limit`, `Cursor`
and `Order` are those of `PagingParams`, its `BaseURL` and `BasePath` are the
action's base URL and path, and the links are the ones the link builder computes
from these stamped fields and the page's records. -/
theorem loadPage_ok_stamped (env : Env) (action : TradeIndexAction)
    (hok : (loadPage env action).Err = none) :
    (loadPage env action).Page.Limit = action.PagingParams.Limit ∧
      (loadPage env action).Page.Cursor = action.PagingParams.Cursor ∧
      (loadPage env action).Page.Order = action.PagingParams.Order ∧
      (loadPage env action).Page.BaseURL = env.BaseURL (loadPage env action).toAction ∧
      (loadPage env action).Page.BasePath = env.Path (loadPage env action).toAction ∧
      (loadPage env action).Page.Links =
        env.Linkf (env.BaseURL (loadPage env action).toAction)
          (env.Path (loadPage env action).toAction) action.PagingParams.Order
          action.PagingParams.Limit action.PagingParams.Cursor
          (loadPage env action).Page.Records := by
  rcases loadPage_cases env action with ⟨ress, _, hrun⟩ | ⟨_, _, _, ress, e, _, _, _, hrun⟩
  · rw [hrun]
    exact ⟨rfl, rfl, rfl, rfl, rfl, rfl⟩
  · rw [hrun] at hok
    simp [afterLoop] at hok

theorem loadPage_ok_stamped_witness :
    (loadPage sampleEnv (sampleAction [⟨10, 1⟩, ⟨12, 3⟩] [(10, ⟨100⟩), (12, ⟨120⟩)])).Err = none ∧
      (loadPage sampleEnv (sampleAction [⟨10, 1⟩, ⟨12, 3⟩] [(10, ⟨100⟩), (12, ⟨120⟩)])).Page.Limit
        = 2 ∧
      (loadPage sampleEnv (sampleAction [⟨10, 1⟩, ⟨12, 3⟩] [(10, ⟨100⟩), (12, ⟨120⟩)])).Page.BaseURL
        = "http://localhost" :=
  ⟨by decide,
    (loadPage_ok_stamped sampleEnv
      (sampleAction [⟨10, 1⟩, ⟨12, 3⟩] [(10, ⟨100⟩), (12, ⟨120⟩)]) (by decide)).1,
    by decide⟩

/-- C9: when the list of records is empty, `loadPage` leaves the recorded error
as it was (it records none), whatever the lookup table, adds no resource to the
page, stamps the pagination metadata and computes the links. -/
theorem loadPage_no_records (env : Env) (action : TradeIndexAction)
    (hnil : action.Records = []) :
    (loadPage env action).Err = action.Err ∧
      (loadPage env action).Page.Records = action.Page.Records ∧
      (loadPage env action).Page.Limit = action.PagingParams.Limit ∧
      (loadPage env action).Page.Cursor = action.PagingParams.Cursor ∧
      (loadPage env action).Page.Order = action.PagingParams.Order ∧
      (loadPage env action).Page.BaseURL = env.BaseURL action.toAction ∧
      (loadPage env action).Page.BasePath = env.Path action.toAction ∧
      (loadPage env action).Page.Links =
        env.Linkf (env.BaseURL action.toAction) (env.Path action.toAction)
          action.PagingParams.Order action.PagingParams.Limit action.PagingParams.Cursor
          action.Page.Records := by
  have hrun : loadPage env action = stampPage env action := by
    simp [loadPage, hnil, loadPageLoop]
  rw [hrun]
  exact ⟨rfl, rfl, rfl, rfl, rfl, rfl, rfl, rfl⟩

theorem loadPage_no_records_witness :
    (sampleAction [] []).Records = [] ∧
      (loadPage sampleEnv (sampleAction [] [])).Err = none ∧
      (loadPage sampleEnv (sampleAction [] [])).Page.Records = [] :=
  ⟨rfl, (loadPage_no_records sampleEnv (sampleAction [] []) rfl).1,
    (loadPage_no_records sampleEnv (sampleAction [] []) rfl).2.1⟩

/-- C10: when the records split as `front ++ r :: back`, the records of `front`
are assembled into `ress`, and `r` fails (its ledger sequence is missing from the
table, or `Populate` returns an error for it), `loadPage` stops there: the page
is the page on entry with exactly `ress` appended to its records, so `BaseURL`,
`BasePath`, `Limit`, `Cursor`, `Order` and the links are unchanged, and an error
is recorded. -/
theorem loadPage_fail_frame (env : Env) (action : TradeIndexAction)
    (front back : List Effect) (r : Effect) (ress : List Trade)
    (hsplit : action.Records = front ++ r :: back)
    (hfront : List.Forall₂
      (fun record res =>
        ∃ ledger, action.LedgerRecords.lookup record.GetLedgerSequence = some ledger ∧
          env.Populate action.Ctx record ledger = (res, none))
      front ress)
    (hfail : action.LedgerRecords.lookup r.GetLedgerSequence = none ∨
      ∃ ledger, action.LedgerRecords.lookup r.GetLedgerSequence = some ledger ∧
        (env.Populate action.Ctx r ledger).2 ≠ none) :
    (loadPage env action).Page =
        { action.Page with Records := action.Page.Records ++ ress } ∧
      ress.length = front.length ∧
      (loadPage env action).Err ≠ none ∧
      (loadPage env action).Page.BaseURL = action.Page.BaseURL ∧
      (loadPage env action).Page.BasePath = action.Page.BasePath ∧
      (loadPage env action).Page.Limit = action.Page.Limit ∧
      (loadPage env action).Page.Cursor = action.Page.Cursor ∧
      (loadPage env action).Page.Order = action.Page.Order ∧
      (loadPage env action).Page.Links = action.Page.Links := by
  have hf : ∃ e, FailsWith env action.Ctx action.LedgerRecords r e := by
    rcases hfail with habsent | ⟨ledger, hl, hp⟩
    · exact ⟨_, Or.inl ⟨habsent, rfl⟩⟩
    · obtain ⟨e, he⟩ := Option.ne_none_iff_exists'.mp hp
      exact ⟨e, Or.inr ⟨ledger, hl, he⟩⟩
  obtain ⟨e, he⟩ := hf
  have hrun := loadPage_of_fail env action front back r ress e hsplit hfront he
  rw [hrun]
  refine ⟨rfl, hfront.length_eq.symm, ?_, rfl, rfl, rfl, rfl, rfl, rfl⟩
  simp [afterLoop]

theorem loadPage_fail_frame_witness :
    (loadPage sampleEnv
      (sampleAction [⟨10, 1⟩, ⟨12, 0⟩, ⟨10, 3⟩] [(10, ⟨100⟩), (12, ⟨120⟩)])).Page
      = { emptyPage with Records := [⟨1, 100⟩] } ∧
    (loadPage sampleEnv
      (sampleAction [⟨10, 1⟩, ⟨12, 0⟩, ⟨10, 3⟩] [(10, ⟨100⟩), (12, ⟨120⟩)])).Err
      = some ⟨"populate failed"⟩ :=
  ⟨(loadPage_fail_frame sampleEnv
      (sampleAction [⟨10, 1⟩, ⟨12, 0⟩, ⟨10, 3⟩] [(10, ⟨100⟩), (12, ⟨120⟩)])
      [⟨10, 1⟩] [⟨10, 3⟩] ⟨12, 0⟩ [⟨1, 100⟩] rfl
      (List.Forall₂.cons ⟨⟨100⟩, by decide, by decide⟩ List.Forall₂.nil)
      (Or.inr ⟨⟨120⟩, by decide, by decide⟩)).1,
    by decide⟩

theorem stampPage_stampPage (env : Env) (action : TradeIndexAction) :
    stampPage env (stampPage env action) = stampPage env action := rfl

/-- C8 as stated fails: on a state with one record that is assembled, the page
after two runs of `loadPage` differs from the page after one run. -/
theorem loadPage_twice_differs :
    ¬ ∀ (env : Env) (action : TradeIndexAction),
        (loadPage env (loadPage env action)).Page = (loadPage env action).Page := by
  intro h
  have h1 := h sampleEnv (sampleAction [⟨10, 1⟩] [(10, ⟨100⟩)])
  revert h1
  decide

/-- C8, amended: a second run of `loadPage` on the state the first run left
appends to the page the same resources `added` that the first run appended; the
base fields of the action and the stamped `BaseURL`, `BasePath`, `Limit`,
`Cursor` and `Order` are those after one run; and when the first run appended
nothing, in particular when there are no records, the state after two runs is
the state after one. -/
theorem loadPage_twice (env : Env) (action : TradeIndexAction) :
    ∃ added : List Trade,
      (loadPage env action).Page.Records = action.Page.Records ++ added ∧
      (loadPage env (loadPage env action)).Page.Records =
        (loadPage env action).Page.Records ++ added ∧
      (loadPage env (loadPage env action)).toAction = (loadPage env action).toAction ∧
      (loadPage env (loadPage env action)).Page.BaseURL = (loadPage env action).Page.BaseURL ∧
      (loadPage env (loadPage env action)).Page.BasePath = (loadPage env action).Page.BasePath ∧
      (loadPage env (loadPage env action)).Page.Limit = (loadPage env action).Page.Limit ∧
      (loadPage env (loadPage env action)).Page.Cursor = (loadPage env action).Page.Cursor ∧
      (loadPage env (loadPage env action)).Page.Order = (loadPage env action).Page.Order ∧
      (added = [] → loadPage env (loadPage env action) = loadPage env action) ∧
      (action.Records = [] → added = []) := by
  rcases loadPage_cases env action with
    ⟨ress, hall, hrun⟩ | ⟨front, back, r, ress, e, hsplit, hfront, hfail, hrun⟩
  · have h2 := loadPage_of_ok env (loadPage env action) ress (by rw [hrun]; exact hall)
    have hrecs : (loadPage env action).Records = action.Records := by rw [hrun]; rfl
    have herr : (loadPage env action).Err = if action.Records = [] then action.Err else none := by
      rw [hrun]; rfl
    have hif : (if (loadPage env action).Records = [] then (loadPage env action).Err else none)
        = (loadPage env action).Err := by
      rw [hrecs, herr]; split <;> rfl
    rw [hif] at h2
    refine ⟨ress, by rw [hrun]; rfl, by rw [h2]; rfl, by rw [h2]; rfl, ?_, ?_, ?_, ?_, ?_, ?_, ?_⟩
    · rw [h2, hrun]; rfl
    · rw [h2, hrun]; rfl
    · rw [h2, hrun]; rfl
    · rw [h2, hrun]; rfl
    · rw [h2, hrun]; rfl
    · intro hnil
      subst hnil
      rw [h2, afterLoop_nil, hrun]
      exact stampPage_stampPage env _
    · intro hnil
      rw [hnil] at hall
      cases hall
      rfl
  · have h2 := loadPage_of_fail env (loadPage env action) front back r ress e
      (by rw [hrun]; exact hsplit) (by rw [hrun]; exact hfront) (by rw [hrun]; exact hfail)
    refine ⟨ress, by rw [hrun]; rfl, by rw [h2]; rfl, ?_, by rw [h2]; rfl, by rw [h2]; rfl,
      by rw [h2]; rfl, by rw [h2]; rfl, by rw [h2]; rfl, ?_, ?_⟩
    · rw [h2, hrun]; rfl
    · intro hnil
      subst hnil
      rw [h2, hrun, afterLoop_afterLoop]
      rfl
    · intro hnil
      rw [hnil] at hsplit
      simp at hsplit

theorem loadPage_twice_witness :
    ∃ added : List Trade,
      (loadPage sampleEnv (sampleAction [⟨10, 1⟩] [(10, ⟨100⟩)])).Page.Records = [] ++ added ∧
      (loadPage sampleEnv
        (loadPage sampleEnv (sampleAction [⟨10, 1⟩] [(10, ⟨100⟩)]))).Page.Records =
        (loadPage sampleEnv (sampleAction [⟨10, 1⟩] [(10, ⟨100⟩)])).Page.Records ++ added := by
  obtain ⟨added, h1, h2, _⟩ := loadPage_twice sampleEnv (sampleAction [⟨10, 1⟩] [(10, ⟨100⟩)])
  exact ⟨added, h1, h2⟩

/-! ## Claims on `loadRecords` -/

/-- C3 as stated fails: there is an action state in which exactly one of the two
assets is the zero value and the query of `loadRecords` carries an order-book
filter. -/
theorem orderBook_applied_one_sided :
    ¬ ∀ action : TradeIndexAction,
        ((action.Selling = Asset.zero ∧ action.Buying ≠ Asset.zero) ∨
          (action.Selling ≠ Asset.zero ∧ action.Buying = Asset.zero)) →
        ∀ s b, Clause.ForOrderBook s b ∉ pagedTradesQuery action := by
  intro h
  exact h oneSidedAction (Or.inr (by decide)) sampleAsset Asset.zero (by decide)

/-- C3, amended: `loadRecords` runs the query `pagedTradesQuery`, and that query
carries an order-book filter exactly when at least one of `Selling` and `Buying`
is non-zero, the filter then being `ForOrderBook(Selling, Buying)`; so in every
state in which exactly one asset is zero the filter is applied, and no
order-book filter is applied only when both are zero. -/
theorem loadRecords_orderBook_iff (env : Env) (action : TradeIndexAction) :
    loadRecords env action =
        { action with
          Records := (env.Select (pagedTradesQuery action) action.Records).1,
          Err := (env.Select (pagedTradesQuery action) action.Records).2 } ∧
      ∀ s b, Clause.ForOrderBook s b ∈ pagedTradesQuery action ↔
        ((action.Selling ≠ Asset.zero ∨ action.Buying ≠ Asset.zero) ∧
          s = action.Selling ∧ b = action.Buying) := by
  refine ⟨rfl, ?_⟩
  intro s b
  unfold pagedTradesQuery tradesQuery
  by_cases ha : action.AccountFilter ≠ "" <;>
    by_cases hb : (action.Selling ≠ Asset.zero ∨ action.Buying ≠ Asset.zero) <;>
    simp [ha, hb]

/-- C4: the query `loadRecords` runs is the trade type filter, then the account
filter exactly when `AccountFilter` is non-empty, then the order-book filter for
`(Selling, Buying)` when one is present, then one page clause built from
`PagingParams`; with no account filter and both assets zero it is the type
filter and the page clause only, and with both filters present both are there. -/
theorem loadRecords_query (env : Env) (action : TradeIndexAction) :
    loadRecords env action =
        { action with
          Records := (env.Select (pagedTradesQuery action) action.Records).1,
          Err := (env.Select (pagedTradesQuery action) action.Records).2 } ∧
      pagedTradesQuery action =
        [Clause.OfType EffectType.EffectTrade] ++
          (if action.AccountFilter ≠ "" then [Clause.ForAccount action.AccountFilter] else []) ++
          (if action.Selling ≠ Asset.zero ∨ action.Buying ≠ Asset.zero then
            [Clause.ForOrderBook action.Selling action.Buying] else []) ++
          [Clause.Page action.PagingParams] ∧
      (action.AccountFilter = "" → action.Selling = Asset.zero → action.Buying = Asset.zero →
        pagedTradesQuery action =
          [Clause.OfType EffectType.EffectTrade, Clause.Page action.PagingParams]) ∧
      (action.AccountFilter ≠ "" →
        (action.Selling ≠ Asset.zero ∨ action.Buying ≠ Asset.zero) →
        pagedTradesQuery action =
          [Clause.OfType EffectType.EffectTrade, Clause.ForAccount action.AccountFilter,
            Clause.ForOrderBook action.Selling action.Buying,
            Clause.Page action.PagingParams]) := by
  refine ⟨rfl, ?_, ?_, ?_⟩
  · unfold pagedTradesQuery tradesQuery
    by_cases ha : action.AccountFilter ≠ "" <;>
      by_cases hb : (action.Selling ≠ Asset.zero ∨ action.Buying ≠ Asset.zero) <;>
      simp [ha, hb]
  · intro ha hs hb
    simp [pagedTradesQuery, tradesQuery, ha, hs, hb]
  · intro ha hb
    simp [pagedTradesQuery, tradesQuery, ha, hb]

theorem loadRecords_query_witness :
    pagedTradesQuery (sampleAction [] []) =
        [Clause.OfType EffectType.EffectTrade, Clause.Page ⟨"", "asc", 2⟩] ∧
      pagedTradesQuery filteredAction =
        [Clause.OfType EffectType.EffectTrade, Clause.ForAccount "GABC",
          Clause.ForOrderBook sampleAsset sampleAsset, Clause.Page ⟨"", "asc", 2⟩] :=
  ⟨(loadRecords_query sampleEnv (sampleAction [] [])).2.2.1 rfl rfl rfl,
    (loadRecords_query sampleEnv filteredAction).2.2.2 (by decide) (Or.inl (by decide))⟩

/-! ## Claims on `loadLedgers` -/

/-- C5: `loadLedgers` issues exactly one fetch to the ledger store, for a
duplicate-free list `wanted` whose members are exactly the ledger sequence
numbers referenced by the loaded records, and stores the lookup table and the
error that the single `LoadLedgers` call returns on the action, changing nothing
else. -/
theorem loadLedgers_single_fetch (env : Env) (action : TradeIndexAction) :
    ∃ wanted : List Int,
      (loadLedgersTraced env action).2 = [wanted] ∧
      wanted.Nodup ∧
      (∀ s, s ∈ wanted ↔ ∃ r ∈ action.Records, r.GetLedgerSequence = s) ∧
      loadLedgers env action =
        { action with
          LedgerRecords := (LoadLedgers env action.Records).1.1,
          Err := (LoadLedgers env action.Records).1.2 } := by
  refine ⟨(action.Records.map Effect.GetLedgerSequence).dedup, ?_, List.nodup_dedup _, ?_, ?_⟩
  · simp only [loadLedgersTraced, LoadLedgers, List.map_id']
    split
    · rfl
    · split <;> rfl
  · intro s
    simp [List.mem_dedup]
  · simp [loadLedgers, loadLedgersTraced]

/-! ## Lemmas on `Do` -/

theorem Do_of_err (fns : List (Stage × (TradeIndexAction → TradeIndexAction)))
    (action : TradeIndexAction) (h : action.Err ≠ none) : Do fns action = (action, []) := by
  cases fns with
  | nil => rfl
  | cons f rest => simp [Do, h]

theorem Do_cons_of_ok (name : Stage) (fn : TradeIndexAction → TradeIndexAction)
    (rest : List (Stage × (TradeIndexAction → TradeIndexAction))) (action : TradeIndexAction)
    (h : action.Err = none) :
    Do ((name, fn) :: rest) action = ((Do rest (fn action)).1, name :: (Do rest (fn action)).2) := by
  simp [Do, h]

/-- Once a front of the stages leaves an error, the whole list does what the
front did. -/
theorem Do_take_of_err (fns : List (Stage × (TradeIndexAction → TradeIndexAction))) :
    ∀ (k : Nat) (action : TradeIndexAction),
      (Do (fns.take k) action).1.Err ≠ none → Do fns action = Do (fns.take k) action := by
  induction fns with
  | nil => intro k action _; simp
  | cons f rest ih =>
    intro k action h
    obtain ⟨name, fn⟩ := f
    by_cases herr : action.Err = none
    · cases k with
      | zero => exact absurd herr (by simpa [Do] using h)
      | succ k =>
        rw [List.take_succ_cons] at h ⊢
        rw [Do_cons_of_ok name fn _ action herr] at h ⊢
        rw [Do_cons_of_ok name fn _ action herr, ih k (fn action) h]
    · rw [Do_of_err _ action herr, Do_of_err _ action herr]

/-- The stages that were run are a front of the stage names, in order. -/
theorem Do_ran_front (fns : List (Stage × (TradeIndexAction → TradeIndexAction))) :
    ∀ action : TradeIndexAction, ∃ n, (Do fns action).2 = (fns.map Prod.fst).take n := by
  induction fns with
  | nil => intro action; exact ⟨0, rfl⟩
  | cons f rest ih =>
    intro action
    obtain ⟨name, fn⟩ := f
    by_cases herr : action.Err = none
    · obtain ⟨n, hn⟩ := ih (fn action)
      exact ⟨n + 1, by rw [Do_cons_of_ok name fn _ action herr]; simp [hn]⟩
    · exact ⟨0, by rw [Do_of_err _ action herr]; rfl⟩

theorem Do_ran_length_le (fns : List (Stage × (TradeIndexAction → TradeIndexAction)))
    (action : TradeIndexAction) : (Do fns action).2.length ≤ fns.length := by
  obtain ⟨n, hn⟩ := Do_ran_front fns action
  rw [hn, List.length_take, List.length_map]
  exact Nat.min_le_right _ _

/-- When no error is left at the end, every stage was run. -/
theorem Do_ran_all_of_ok (fns : List (Stage × (TradeIndexAction → TradeIndexAction))) :
    ∀ action : TradeIndexAction,
      (Do fns action).1.Err = none → (Do fns action).2 = fns.map Prod.fst := by
  induction fns with
  | nil => intro action _; rfl
  | cons f rest ih =>
    intro action h
    obtain ⟨name, fn⟩ := f
    by_cases herr : action.Err = none
    · rw [Do_cons_of_ok name fn _ action herr] at h ⊢
      simp [ih (fn action) h]
    · rw [Do_of_err _ action herr] at h
      exact absurd h herr

/-- Running a list of stages followed by one more stage. -/
theorem Do_snoc (name : Stage) (fn : TradeIndexAction → TradeIndexAction)
    (fns : List (Stage × (TradeIndexAction → TradeIndexAction))) :
    ∀ action : TradeIndexAction,
      Do (fns ++ [(name, fn)]) action =
        if (Do fns action).1.Err ≠ none then Do fns action
        else (fn (Do fns action).1, (Do fns action).2 ++ [name]) := by
  induction fns with
  | nil =>
    intro action
    by_cases herr : action.Err = none <;> simp [Do, herr]
  | cons f rest ih =>
    intro action
    obtain ⟨name1, fn1⟩ := f
    by_cases herr : action.Err = none
    · rw [List.cons_append, Do_cons_of_ok name1 fn1 _ action herr,
        Do_cons_of_ok name1 fn1 _ action herr, ih (fn1 action)]
      by_cases h2 : (Do rest (fn1 action)).1.Err = none <;> simp [h2]
    · rw [Do_of_err _ action herr, Do_of_err _ action herr]
      simp [herr]

/-! ## Claims on `JSON` -/

/-- C6: the stages that `JSON` runs are a front of the fixed order
`EnsureHistoryFreshness, loadParams, loadRecords, loadLedgers, loadPage, render`,
all six when no error is left at the end; when the action's error is set after
the first `k` stages, the run is exactly the run of these `k` stages, so no later
stage executes; and whenever the run ends with an error the render stage was not
run and the run is that of the five stages before it. -/
theorem JSON_short_circuit (env : Env) (action : TradeIndexAction) :
    (∃ n, (JSON env action).2 = stageOrder.take n) ∧
      ((JSON env action).1.Err = none → (JSON env action).2 = stageOrder) ∧
      (∀ k, (Do ((stages env).take k) action).1.Err ≠ none →
        JSON env action = Do ((stages env).take k) action ∧ (JSON env action).2.length ≤ k) ∧
      ((JSON env action).1.Err ≠ none →
        Stage.render ∉ (JSON env action).2 ∧
          JSON env action = Do ((stages env).take 5) action) := by
  refine ⟨Do_ran_front (stages env) action, Do_ran_all_of_ok (stages env) action, ?_, ?_⟩
  · intro k h
    have hrun : JSON env action = Do ((stages env).take k) action :=
      Do_take_of_err (stages env) k action h
    refine ⟨hrun, ?_⟩
    rw [hrun]
    exact le_trans (Do_ran_length_le _ _) (by simp)
  · intro h
    have hsplit : stages env = (stages env).take 5 ++
        [(Stage.render, fun a => { a with W := halRender a.W a.Page })] := rfl
    have hrun : JSON env action = Do ((stages env).take 5) action := by
      by_cases h5 : (Do ((stages env).take 5) action).1.Err = none
      · exfalso
        apply h
        unfold JSON
        rw [hsplit, Do_snoc]
        simp only [h5, ne_eq, not_true_eq_false, if_false]
      · exact Do_take_of_err (stages env) 5 action h5
    refine ⟨?_, hrun⟩
    rw [hrun]
    obtain ⟨n, hn⟩ := Do_ran_front ((stages env).take 5) action
    rw [hn]
    intro hmem
    have := List.mem_of_mem_take hmem
    simp [stages] at this

theorem JSON_short_circuit_witness :
    (Do ((stages failingEnv).take 3) (sampleAction [] [])).1.Err ≠ none ∧
      JSON failingEnv (sampleAction [] []) =
        Do ((stages failingEnv).take 3) (sampleAction [] []) ∧
      (JSON failingEnv (sampleAction [] [])).2 =
        [Stage.EnsureHistoryFreshness, Stage.loadParams, Stage.loadRecords] ∧
      (JSON failingEnv (sampleAction [] [])).1.W = [] :=
  ⟨by decide,
    ((JSON_short_circuit failingEnv (sampleAction [] [])).2.2.1 3 (by decide)).1,
    by decide, by decide⟩

end Horizon
